import Mathlib

/-!
Verification of the voice-orchestrator intent resolution engine.

The Python source is shallowly embedded as follows.

Dictionaries (Python dict) are association lists `List (String × α)`
preserving insertion order; assignment replaces in place or appends,
lookup returns the first matching entry.

Embedding matrices are represented by the list of utterance texts whose
normalized embedding vectors form the rows, in row order; the cosine
similarity between an encoded query and the row built from a stored text
is abstracted as an arbitrary function `sim : String → String → ℚ`
supplied as a parameter.  Scores are rationals.

External effects (S3 persistence, MQTT publishing) are modelled as data
returned by the functions: a Bool recording whether a sync happened, or
a list of published messages.
-/

namespace VoiceOrch

/-- Dictionary lookup: first entry whose key matches. -/
def alookup {α : Type} (l : List (String × α)) (k : String) : Option α :=
  (l.find? (fun p => p.1 == k)).map (fun p => p.2)

/-- Dictionary assignment: replace the value in place if the key exists,
else append a new entry (Python dict semantics). -/
def upsert {α : Type} (l : List (String × α)) (k : String) (v : α) :
    List (String × α) :=
  if (alookup l k).isSome then
    l.map (fun p => if p.1 == k then (k, v) else p)
  else
    l ++ [(k, v)]

/-- Dictionary removal (Python dict.pop). -/
def eraseKey {α : Type} (l : List (String × α)) (k : String) :
    List (String × α) :=
  l.filter (fun p => p.1 != k)

/-- Auxiliary scan for numpy argmax: keeps the first index achieving the
maximum. -/
def argmaxAux : Nat × ℚ → Nat → List ℚ → Nat × ℚ
  | best, _, [] => best
  | best, i, v :: rest =>
      argmaxAux (if v > best.2 then (i, v) else best) (i + 1) rest

/-- Index of the first maximal element (np.argmax); 0 on the empty list. -/
def argmaxIdx : List ℚ → Nat
  | [] => 0
  | v :: rest => (argmaxAux (0, v) 1 rest).1

/-- Python str.lower as a character-wise map (executable counterpart of
String.toLower). -/
def lowerStr (s : String) : String := String.mk (s.data.map Char.toLower)

/-- Python str.strip: remove leading and trailing whitespace. -/
def stripStr (s : String) : String :=
  String.mk
    (((s.data.dropWhile Char.isWhitespace).reverse.dropWhile
        Char.isWhitespace).reverse)

/-- Key normalization used throughout the source: `s.lower().strip()`. -/
def normKey (s : String) : String := stripStr (lowerStr s)

/-! ## Sanitizer: trigram Dice coefficient (sanitizer.py) -/

/-- Lower-cased character list with every space removed:
`text.lower().replace(" ", "")`. -/
def cleanedChars (text : String) : List Char :=
  ((lowerStr text).data).filter (fun c => c != ' ')

/-- Consecutive character triples of a list. -/
def trigramList : List Char → List (Char × Char × Char)
  | a :: b :: c :: rest => (a, b, c) :: trigramList (b :: c :: rest)
  | _ => []

/-- NgramSanitizer._get_trigrams: the set of character trigrams of the
lower-cased, space-stripped string. -/
def getTrigrams (text : String) : Finset (Char × Char × Char) :=
  (trigramList (cleanedChars text)).toFinset

/-- NgramSanitizer._dice_coefficient: Sørensen–Dice coefficient between
the trigram sets of two strings; 0.0 when either set is empty. -/
def diceCoefficient (str1 str2 : String) : ℚ :=
  let tri1 := getTrigrams str1
  let tri2 := getTrigrams str2
  if tri1 = ∅ ∨ tri2 = ∅ then 0
  else (2 * ((tri1 ∩ tri2).card : ℚ)) / (((tri1.card : ℚ)) + ((tri2.card : ℚ)))

/-! ## Semantic cache (semantic_cache.py, class S3SemanticCache)

The cache owns a dictionary mapping normalized utterance text to
`{tool, args, exact_only}` plus a fuzzy index.  The index
(`utterance_matrix` together with `utterance_texts`) is represented by
the list of texts whose normalized embeddings form its rows; cosine
similarity of an encoded query against a row is abstracted as a
parameter `sim`.  The registry of exact-only tools (`self.exact_tools`)
is a list of tool names. -/

/-- Tool argument mapping (a JSON object of string arguments). -/
abbrev ToolArgs := List (String × String)

/-- In-memory cache entry: values of `self.cache_dict`. -/
structure CacheEntry where
  tool : String
  args : ToolArgs
  exactOnly : Bool
deriving DecidableEq, Repr

/-- Persisted cache entry as parsed from tool_cache.json; the
`exact_only` field is read with `.get` and may be absent. -/
structure LoadedEntry where
  tool : String
  args : ToolArgs
  exactOnlyField : Option Bool
deriving DecidableEq, Repr

/-- Cache state: `self.cache_dict` plus the fuzzy index
(`self.utterance_texts`, standing in for `self.utterance_matrix`). -/
structure CacheState where
  cacheDict : List (String × CacheEntry)
  utteranceTexts : List String
deriving DecidableEq, Repr

/-- Keys of the entries admitted to the fuzzy index: texts whose entry
is not flagged exact_only, in dictionary order. -/
def fuzzyTexts (entries : List (String × CacheEntry)) : List String :=
  (entries.filter (fun p => !p.2.exactOnly)).map (fun p => p.1)

/-- S3SemanticCache._rebuild_matrix: recompute `utterance_texts` (and
hence the matrix rows) from the non-exact_only entries. -/
def rebuildMatrix (st : CacheState) : CacheState :=
  { st with utteranceTexts := fuzzyTexts st.cacheDict }

/-- Self-healing of one loaded entry: `exact_only` is recomputed as
membership of the tool in the current registry. -/
def healEntry (exactTools : List String) (e : LoadedEntry) : CacheEntry :=
  { tool := e.tool, args := e.args, exactOnly := exactTools.contains e.tool }

/-- S3SemanticCache._load_from_s3 on a successfully fetched document:
every entry's exact_only flag is recomputed against the registry, the
table is re-persisted when any flag changed, and the fuzzy index is
rebuilt.  Returns the resulting state and whether _sync_to_s3 ran. -/
def loadFromS3 (exactTools : List String)
    (doc : List (String × LoadedEntry)) : CacheState × Bool :=
  let healed := doc.map (fun p => (p.1, healEntry exactTools p.2))
  let changed :=
    doc.any (fun p => p.2.exactOnlyField != some (exactTools.contains p.2.tool))
  (rebuildMatrix { cacheDict := healed, utteranceTexts := [] }, changed)

/-- S3SemanticCache.add_to_cache: normalize the key; when absent, store
the entry with exact_only computed from the registry, rebuild the index
only for fuzzy entries, and persist.  Returns the new state and whether
_sync_to_s3 ran. -/
def addToCache (exactTools : List String) (st : CacheState)
    (utterance toolName : String) (toolArgs : ToolArgs) : CacheState × Bool :=
  let u := normKey utterance
  let exactOnly := exactTools.contains toolName
  if (alookup st.cacheDict u).isSome then (st, false)
  else
    let st1 :=
      { st with
          cacheDict :=
            st.cacheDict ++ [(u, ⟨toolName, toolArgs, exactOnly⟩)] }
    (if exactOnly then st1 else rebuildMatrix st1, true)

/-- S3SemanticCache.get_cached_tool: tier 1 is an exact lookup of the
normalized query (score 1.0); tier 2 encodes the query and takes the
arg-max cosine similarity over the fuzzy index, returning the matched
entry when the best score reaches the threshold and the entry is not
exact_only, else no tool with the best score. -/
def getCachedTool (sim : String → String → ℚ) (st : CacheState)
    (query : String) (threshold : ℚ) :
    Option String × Option ToolArgs × ℚ :=
  let q := normKey query
  match alookup st.cacheDict q with
  | some e => (some e.tool, some e.args, 1)
  | none =>
    if st.utteranceTexts.isEmpty then (none, none, 0)
    else
      let sims := st.utteranceTexts.map (sim q)
      let bestIdx := argmaxIdx sims
      let bestScore := sims.getD bestIdx 0
      if bestScore ≥ threshold then
        match alookup st.cacheDict (st.utteranceTexts.getD bestIdx "") with
        | some e =>
          if !e.exactOnly then (some e.tool, some e.args, bestScore)
          else (none, none, bestScore)
        | none => (none, none, bestScore)
      else (none, none, bestScore)

/-- Cache states reachable for a fixed exact-tool registry: a load of
any persisted document (JSON object keys are unique) followed by any
sequence of add_to_cache operations. -/
inductive ReachableCache (exactTools : List String) : CacheState → Prop where
  | load (doc : List (String × LoadedEntry))
      (hnd : (doc.map Prod.fst).Nodup) :
      ReachableCache exactTools (loadFromS3 exactTools doc).1
  | add (st : CacheState) (u t : String) (a : ToolArgs)
      (h : ReachableCache exactTools st) :
      ReachableCache exactTools (addToCache exactTools st u t a).1

/-- Invariant tying a cache state to the registry: unique keys, the
fuzzy index lists exactly the non-exact_only entries, and every flag
agrees with registry membership of the owning tool. -/
def CacheInv (exactTools : List String) (st : CacheState) : Prop :=
  (st.cacheDict.map Prod.fst).Nodup ∧
  st.utteranceTexts = fuzzyTexts st.cacheDict ∧
  ∀ p ∈ st.cacheDict, p.2.exactOnly = exactTools.contains p.2.tool

/-! ## Semantic router (semantic_router.py, class S3SemanticRouter)

The embedding matrix is again represented by the list of utterance
texts whose normalized embeddings form its rows. -/

/-- Router state: `self.route_dict`, `self.routes`,
`self.utterance_matrix` (represented by row texts) and
`self.utterance_routes` (owning route label per row). -/
structure RouterState where
  routeDict : List (String × List String)
  routes : List String
  utteranceMatrix : List String
  utteranceRoutes : List String
deriving DecidableEq, Repr

/-- Cosine-similarity acceptance threshold of the router
(`self.threshold = 0.55`). -/
def routerThreshold : ℚ := 55 / 100

/-- First route whose phrase list contains the utterance, in dictionary
order (the conflict scan of learn_new_phrase). -/
def findOwner (routeDict : List (String × List String)) (u : String) :
    Option String :=
  (routeDict.find? (fun p => p.2.contains u)).map (fun p => p.1)

/-- Appends an utterance to the phrase list stored under a route key
(`self.route_dict[route_name].append(utterance)`). -/
def appendToRoute (routeDict : List (String × List String))
    (routeName u : String) : List (String × List String) :=
  routeDict.map (fun p => if p.1 == routeName then (p.1, p.2 ++ [u]) else p)

/-- Reply when the utterance is already recorded under the same route. -/
def msgAlreadyKnown (u routeName : String) : String :=
  "Ich weiß bereits, dass \x27" ++ u ++ "\x27 zu \x27" ++ routeName ++
    "\x27 gehört."

/-- Reply when the utterance already triggers a different route. -/
def msgConflict (u existingRoute : String) : String :=
  "Konflikt: \x27" ++ u ++ "\x27 löst bereits die Kategorie \x27" ++
    existingRoute ++ "\x27 aus."

/-- Reply when the phrase was newly learned. -/
def msgLearned (u routeName : String) : String :=
  "Okay, ich habe gelernt, dass \x27" ++ u ++ "\x27 die Kategorie \x27" ++
    routeName ++ "\x27 auslöst."

/-- S3SemanticRouter.learn_new_phrase: normalizes both inputs, rejects
with a report of the existing owner when the utterance already belongs
to any route, otherwise records it under the route, appends one
normalized embedding row with its label, and persists.  Returns the new
state, whether _sync_to_s3 ran, and the reply string. -/
def learnNewPhrase (st : RouterState) (routeName utterance : String) :
    RouterState × Bool × String :=
  let r := normKey routeName
  let u := normKey utterance
  match findOwner st.routeDict u with
  | some owner =>
      if owner = r then (st, false, msgAlreadyKnown u r)
      else (st, false, msgConflict u owner)
  | none =>
    let known := (alookup st.routeDict r).isSome
    let routeDict1 := if known then st.routeDict else st.routeDict ++ [(r, [])]
    let routes1 := if known then st.routes else st.routes ++ [r]
    ({ routeDict := appendToRoute routeDict1 r u,
       routes := routes1,
       utteranceMatrix := st.utteranceMatrix ++ [u],
       utteranceRoutes := st.utteranceRoutes ++ [r] },
     true, msgLearned u r)

/-- Modelled from the spec: `S3SemanticRouter.get_match_details`, the
router query used by main.py, is not present in src/semantic_router.py
(only its callers are).  Per spec sections 4.3 and 4.5 it returns the
route owning the best-scoring example row when the score meets the
router threshold (else none), together with the matched phrase and its
score; the query is lower-cased and encoded like in get_route. -/
def getMatchDetails (sim : String → String → ℚ) (st : RouterState)
    (query : String) : Option String × String × ℚ :=
  if st.utteranceMatrix.isEmpty then (none, "", 0)
  else
    let q := lowerStr query
    let sims := st.utteranceMatrix.map (sim q)
    let i := argmaxIdx sims
    let s := sims.getD i 0
    ((if s ≥ routerThreshold then some (st.utteranceRoutes.getD i "") else none),
     (st.utteranceMatrix.getD i "", s))

/-! ## Tool handler (tool_handler.py) -/

/-- Keys of TOOL_MAPPING in tool_handler.py. -/
def TOOL_MAPPING_keys : List String :=
  ["control_light", "set_temperature", "play_music", "activate_scene",
   "stop_music", "next_track", "previous_track", "queue_music",
   "resume_music", "whats_playing", "clear_queue", "set_timer"]

/-- Error reply for a tool present in tools.json but absent from
TOOL_MAPPING. -/
def msgNotImplemented (toolName : String) : String :=
  "Error: Tool \x27" ++ toolName ++
    "\x27 is defined in JSON but not implemented in Python."

/-- execute_tool: an unknown tool yields the not-implemented message;
a known tool runs its implementation (abstracted as `impls`, which may
raise).  In the exception handler the message return is commented out
in the source, so a raising tool makes execute_tool return None. -/
def executeTool (impls : String → ToolArgs → Except Unit String)
    (toolName : String) (toolArgs : ToolArgs) : Option String :=
  if !(TOOL_MAPPING_keys.contains toolName) then
    some (msgNotImplemented toolName)
  else
    match impls toolName toolArgs with
    | Except.ok s => some s
    | Except.error _ => none

/-! ## Resolution pipeline (main.py) -/

/-- FAST_PATH_MAP of main.py: exact matched phrase to tool and static
arguments. -/
def FAST_PATH_MAP : List (String × (String × ToolArgs)) :=
  [("musik stoppen", ("stop_music", [])),
   ("musik fortsetzen", ("resume_music", [])),
   ("nächstes lied bitte", ("next_track", [])),
   ("leere die warteschlange", ("clear_queue", [])),
   ("was läuft gerade", ("whats_playing", [])),
   ("timer abbrechen", ("cancel_timer", [])),
   ("timer stop", ("cancel_timer", [])),
   ("wie viel zeit ist noch auf dem timer", ("timer_remaining", []))]

/-- Python truthiness of an optional string: None and the empty string
are falsy. -/
def optTruthy : Option String → Bool
  | none => false
  | some s => s != ""

/-- Dictionary assignment `args["room"] = room` on an argument map. -/
def insertArg (args : ToolArgs) (k v : String) : ToolArgs := upsert args k v

/-- Dictionary removal `args.pop("room", None)` on an argument map. -/
def removeArg (args : ToolArgs) (k : String) : ToolArgs := eraseKey args k

/-- run_llm_inference: the chat collaborator (abstracted as `chat`)
returns the message content and requested tool calls; each tool call is
executed in order, the response text being overwritten by each result;
when no text was produced the fixed fallback phrase is substituted.
Returns (response text, client actions, executed tool calls). -/
def runLlmInference (impls : String → ToolArgs → Except Unit String)
    (chat : String → String → String → Option String →
      Option String × List (String × ToolArgs))
    (room text speakerId : String) (route : Option String) :
    String × List String × List (String × ToolArgs) :=
  let res := chat room text speakerId route
  let content := res.1
  let toolCalls := res.2
  let finalText : Option String :=
    if toolCalls.isEmpty then content
    else toolCalls.foldl (fun _ tc => executeTool impls tc.1 tc.2) none
  let finalText' :=
    match finalText with
    | none => "Das habe ich nicht verstanden."
    | some s => if s = "" then "Das habe ich nicht verstanden." else s
  (finalText', [], toolCalls)

/-- resolve_and_execute_intent: tier 1 semantic cache at threshold
0.92 (hit executes the cached tool with the room added); tier 2 router
match details; tier 3 static fast path when the matched phrase is in
FAST_PATH_MAP and the score reaches 0.85; tier 4 LLM fallback followed
by cache learning of every executed tool call with room-agnostic
arguments.  Returns (response text, actions, resulting cache state). -/
def resolveAndExecuteIntent (simC simR : String → String → ℚ)
    (exactTools : List String)
    (impls : String → ToolArgs → Except Unit String)
    (chat : String → String → String → Option String →
      Option String × List (String × ToolArgs))
    (cache : CacheState) (router : RouterState)
    (room text speakerId : String) :
    Option String × List String × CacheState :=
  let cres := getCachedTool simC cache text (92 / 100)
  if optTruthy cres.1 then
    (executeTool impls (cres.1.getD "") (insertArg (cres.2.1.getD []) "room" room),
     ([], cache))
  else
    let mres := getMatchDetails simR router text
    let route := mres.1
    let matched := mres.2.1
    let score := mres.2.2
    if score ≥ 85 / 100 ∧ (alookup FAST_PATH_MAP matched).isSome then
      let fp := (alookup FAST_PATH_MAP matched).getD ("", [])
      (executeTool impls fp.1 (insertArg fp.2 "room" room), ([], cache))
    else
      let lres := runLlmInference impls chat room text speakerId route
      let cacheAfter := lres.2.2.foldl
        (fun c tc => (addToCache exactTools c text tc.1 (removeArg tc.2 "room")).1)
        cache
      (some lres.1, (lres.2.1, cacheAfter))

/-! ## Event correlator (main.py, main_async and
process_intent_if_ready) -/

/-- Pending intent for one room: values of `pending_intents`; a missing
dictionary key reads as None. -/
structure PendingIntent where
  text : Option String
  speaker : Option String
deriving DecidableEq, Repr

/-- Broker messages published by the orchestrator. -/
inductive Pub where
  | finished (room : String)
  | satelliteAction (room : String)
  | tts (room : String) (text : String)
deriving DecidableEq, Repr

/-- Correlator state: the pending-intent table, the units of work
handed to the resolution pipeline (room, transcript, speaker), and the
broker messages published so far. -/
structure CorrState where
  pending : List (String × PendingIntent)
  dispatched : List (String × String × String)
  published : List Pub
deriving DecidableEq, Repr

/-- Events consumed by the message loop of main_async. -/
inductive CorrEvent where
  | wakeword (room : String)
  | finished (room : String)
  | asrText (room text : String)
  | speakerIdentified (room speakerId : String)
deriving DecidableEq, Repr

/-- The asr-text branch state update:
`pending_intents.setdefault(room, \x7b\x7d)["text"] = text`. -/
def setPendingText (s : CorrState) (room text : String) : CorrState :=
  let cur := (alookup s.pending room).getD ⟨none, none⟩
  { s with pending := upsert s.pending room { cur with text := some text } }

/-- The speaker-identified branch state update, analogous to
`setPendingText`. -/
def setPendingSpeaker (s : CorrState) (room speakerId : String) : CorrState :=
  let cur := (alookup s.pending room).getD ⟨none, none⟩
  { s with pending := upsert s.pending room { cur with speaker := some speakerId } }

/-- process_intent_if_ready: when the room has a pending entry with
both transcript and speaker present, the entry is popped; a blank
transcript publishes session-end and aborts; otherwise the (room,
transcript, speaker) unit is handed to the resolution pipeline (whose
resolve-and-publish try-block is abstracted as `pipeline`, run on the
sanitized text) and any raised exception publishes session-end for the
room. -/
def processIntentIfReady {ε : Type}
    (pipeline : String → String → String → Except ε (List Pub))
    (sanitizeF : String → String) (s : CorrState) (room : String) :
    CorrState :=
  match alookup s.pending room with
  | none => s
  | some pi =>
    match pi.text, pi.speaker with
    | some t, some sp =>
      let pending' := eraseKey s.pending room
      if stripStr t = "" then
        { pending := pending', dispatched := s.dispatched,
          published := s.published ++ [Pub.finished room] }
      else
        let outcome :=
          match pipeline room (sanitizeF t) sp with
          | Except.ok pubs => pubs
          | Except.error _ => [Pub.finished room]
        { pending := pending', dispatched := s.dispatched ++ [(room, t, sp)],
          published := s.published ++ outcome }
    | _, _ => s

/-- One iteration of the message loop of main_async: a wake event
resets the room's entry to an empty pending intent; transcript and
speaker events set their field (creating the entry if absent) and then
run process_intent_if_ready; a finished event only restores volume
(outside this model). -/
def corrStep {ε : Type}
    (pipeline : String → String → String → Except ε (List Pub))
    (sanitizeF : String → String) (s : CorrState) :
    CorrEvent → CorrState
  | CorrEvent.wakeword room =>
      { s with pending := upsert s.pending room ⟨none, none⟩ }
  | CorrEvent.finished _ => s
  | CorrEvent.asrText room text =>
      processIntentIfReady pipeline sanitizeF (setPendingText s room text) room
  | CorrEvent.speakerIdentified room speakerId =>
      processIntentIfReady pipeline sanitizeF
        (setPendingSpeaker s room speakerId) room

/-! ## Concrete fixtures used by witnesses -/

/-- Registry for the cache witnesses: play_music is an exact-only tool. -/
def wExactTools : List String := ["play_music"]

/-- Persisted cache document for the cache witnesses: one entry whose
stored flag is stale (false although its tool is exact-only). -/
def wDoc : List (String × LoadedEntry) :=
  [("spiele despacito",
    { tool := "play_music", args := [("query", "despacito")],
      exactOnlyField := some false })]

/-- Cache state obtained by loading wDoc against wExactTools. -/
def wCacheSt : CacheState := (loadFromS3 wExactTools wDoc).1

/-- Pipeline stub for the correlator witnesses: always succeeds with no
publications. -/
def wOkPipeline : String → String → String → Except Unit (List Pub) :=
  fun _ _ _ => Except.ok []

/-! ## Helper lemmas -/

theorem alookup_cons {α : Type} (p : String × α) (l : List (String × α))
    (k : String) :
    alookup (p :: l) k = if p.1 == k then some p.2 else alookup l k := by
  by_cases h : p.1 == k
  · simp [alookup, List.find?_cons_of_pos, h]
  · simp [alookup, List.find?_cons_of_neg, h]

theorem alookup_eq_none_iff {α : Type} (l : List (String × α)) (k : String) :
    alookup l k = none ↔ ∀ p ∈ l, p.1 ≠ k := by
  unfold alookup
  rw [Option.map_eq_none', List.find?_eq_none]
  simp

theorem alookup_append_right {α : Type} (l : List (String × α)) (k : String)
    (v : α) (h : alookup l k = none) :
    alookup (l ++ [(k, v)]) k = some v := by
  induction l with
  | nil => simp [alookup]
  | cons q t ih =>
    rw [alookup_cons] at h
    rw [List.cons_append, alookup_cons]
    by_cases hq : q.1 == k
    · simp [hq] at h
    · simpa [hq] using ih (by simpa [hq] using h)

theorem alookup_mem {α : Type} (l : List (String × α)) (k : String) (v : α)
    (h : alookup l k = some v) : (k, v) ∈ l := by
  unfold alookup at h
  cases hf : l.find? (fun p => p.1 == k) with
  | none => rw [hf] at h; simp at h
  | some q =>
    rw [hf] at h
    have hv : q.2 = v := by simpa using h
    have hq : q.1 = k := by simpa using List.find?_some hf
    have hmem := List.mem_of_find?_eq_some hf
    have hqkv : q = (k, v) := by
      obtain ⟨q1, q2⟩ := q
      simp only at hq hv
      rw [hq, hv]
    rwa [hqkv] at hmem

theorem alookup_of_mem_nodup {α : Type} (l : List (String × α)) (k : String)
    (v : α) (hnd : (l.map Prod.fst).Nodup) (hmem : (k, v) ∈ l) :
    alookup l k = some v := by
  induction l with
  | nil => simp at hmem
  | cons q t ih =>
    rw [alookup_cons]
    rcases List.mem_cons.mp hmem with h1 | h1
    · rw [← h1]
      simp
    · have hq : q.1 ≠ k := by
        intro hk
        have hkt : k ∈ t.map Prod.fst := List.mem_map_of_mem Prod.fst h1
        rw [List.map_cons, List.nodup_cons] at hnd
        exact hnd.1 (hk ▸ hkt)
      have hq' : ¬(q.1 == k) := by simpa using hq
      simp only [hq', if_false, if_neg, Bool.false_eq_true, not_false_iff]
      exact ih (by rw [List.map_cons, List.nodup_cons] at hnd; exact hnd.2) h1

theorem alookup_upsert_self {α : Type} (l : List (String × α)) (k : String)
    (v : α) : alookup (upsert l k v) k = some v := by
  unfold upsert
  by_cases h : (alookup l k).isSome
  · simp only [h, if_true, if_pos]
    induction l with
    | nil => simp [alookup] at h
    | cons q t ih =>
      rw [List.map_cons]
      by_cases hq : q.1 == k
      · simp only [hq, if_true, if_pos]
        rw [alookup_cons]
        simp
      · simp only [hq, if_false, if_neg, Bool.false_eq_true, not_false_iff]
        rw [alookup_cons]
        rw [alookup_cons] at h
        simp only [hq, if_false, if_neg, Bool.false_eq_true, not_false_iff] at h ⊢
        exact ih h
  · simp only [h, if_false, if_neg, Bool.false_eq_true, not_false_iff]
    exact alookup_append_right l k v (by
      cases hl : alookup l k
      · rfl
      · rw [hl] at h; simp at h)

theorem alookup_erase_self {α : Type} (l : List (String × α)) (k : String) :
    alookup (eraseKey l k) k = none := by
  rw [alookup_eq_none_iff]
  intro p hp
  have := List.of_mem_filter hp
  simpa using this

theorem argmaxAux_fst_lt (rest : List ℚ) :
    ∀ (best : Nat × ℚ) (i : Nat), best.1 < i →
      (argmaxAux best i rest).1 < i + rest.length := by
  induction rest with
  | nil =>
    intro best i h
    simpa [argmaxAux] using h
  | cons v t ih =>
    intro best i h
    rw [argmaxAux]
    have hlt : (if v > best.2 then (i, v) else best).1 < i + 1 := by
      by_cases hv : v > best.2
      · simp [hv]
      · simp only [hv, if_false, if_neg, not_false_iff]
        exact Nat.lt_succ_of_lt h
    have := ih (if v > best.2 then (i, v) else best) (i + 1) hlt
    simpa [Nat.add_assoc, Nat.add_comm 1 t.length] using this

theorem argmaxIdx_lt (l : List ℚ) (h : l ≠ []) : argmaxIdx l < l.length := by
  match l, h with
  | v :: rest, _ =>
    rw [argmaxIdx]
    have := argmaxAux_fst_lt rest (0, v) 1 (by simp)
    simpa [Nat.add_comm 1 rest.length] using this

theorem trigramList_eq_nil (l : List Char) (h : l.length < 3) :
    trigramList l = [] := by
  match l with
  | [] => rfl
  | [a] => rfl
  | [a, b] => rfl
  | a :: b :: c :: rest =>
    exfalso
    simp only [List.length_cons] at h
    omega

theorem getTrigrams_nonempty (a : String) (h : 3 ≤ (cleanedChars a).length) :
    getTrigrams a ≠ ∅ := by
  unfold getTrigrams
  match hc : cleanedChars a with
  | [] => rw [hc] at h; simp at h
  | [x] => rw [hc] at h; simp at h
  | [x, y] => rw [hc] at h; simp at h
  | x :: y :: z :: rest =>
    rw [trigramList]
    simp

theorem getTrigrams_empty (a : String) (h : (cleanedChars a).length < 3) :
    getTrigrams a = ∅ := by
  unfold getTrigrams
  rw [trigramList_eq_nil (cleanedChars a) h]
  rfl

theorem fuzzyTexts_append (l : List (String × CacheEntry))
    (p : String × CacheEntry) :
    fuzzyTexts (l ++ [p]) =
      fuzzyTexts l ++ (if p.2.exactOnly then [] else [p.1]) := by
  unfold fuzzyTexts
  rw [List.filter_append, List.map_append]
  by_cases h : p.2.exactOnly
  · simp [h]
  · simp [h]

theorem cacheInv_load (exactTools : List String)
    (doc : List (String × LoadedEntry))
    (hnd : (doc.map Prod.fst).Nodup) :
    CacheInv exactTools (loadFromS3 exactTools doc).1 := by
  refine ⟨?_, rfl, ?_⟩
  · simpa [loadFromS3, rebuildMatrix, List.map_map, Function.comp] using hnd
  · intro p hp
    simp only [loadFromS3, rebuildMatrix, List.mem_map] at hp
    obtain ⟨q, _, hq⟩ := hp
    rw [← hq]
    rfl

theorem cacheInv_add (exactTools : List String) (st : CacheState)
    (u t : String) (a : ToolArgs) (hinv : CacheInv exactTools st) :
    CacheInv exactTools (addToCache exactTools st u t a).1 := by
  obtain ⟨hnd, htexts, hflags⟩ := hinv
  unfold addToCache
  by_cases hmem : (alookup st.cacheDict (normKey u)).isSome
  · simpa [hmem] using ⟨hnd, htexts, hflags⟩
  · have hnone : alookup st.cacheDict (normKey u) = none := by
      cases hl : alookup st.cacheDict (normKey u)
      · rfl
      · rw [hl] at hmem; simp at hmem
    have hkey : ∀ p ∈ st.cacheDict, p.1 ≠ normKey u :=
      (alookup_eq_none_iff st.cacheDict (normKey u)).mp hnone
    have hnd' : ∀ e : CacheEntry,
        ((st.cacheDict ++ [(normKey u, e)]).map Prod.fst).Nodup := by
      intro e
      rw [List.map_append, List.nodup_append]
      refine ⟨hnd, by simp, ?_⟩
      intro x hx
      simp only [List.mem_map] at hx
      obtain ⟨q, hq, hqx⟩ := hx
      simp only [List.map_cons, List.map_nil, List.mem_singleton]
      rw [← hqx]
      exact hkey q hq
    simp only [hmem, if_false, if_neg, Bool.false_eq_true, not_false_iff]
    by_cases hex : exactTools.contains t
    · simp only [hex, if_true, if_pos]
      refine ⟨hnd' _, ?_, ?_⟩
      · rw [htexts, fuzzyTexts_append]
        simp [hex]
      · intro p hp
        rcases List.mem_append.mp hp with h1 | h1
        · exact hflags p h1
        · simp only [List.mem_singleton] at h1
          rw [h1]
          exact hex.symm
    · have hcf : exactTools.contains t = false := by
        cases hc : exactTools.contains t
        · rfl
        · exact absurd hc hex
      simp only [hex, if_false, if_neg, Bool.false_eq_true, not_false_iff]
      refine ⟨by
        simpa [rebuildMatrix] using
          hnd' ⟨t, a, false⟩, rfl, ?_⟩
      intro p hp
      simp only [rebuildMatrix] at hp
      rcases List.mem_append.mp hp with h1 | h1
      · exact hflags p h1
      · simp only [List.mem_singleton] at h1
        rw [h1]
        exact hcf.symm

theorem cacheInv_reachable (exactTools : List String) (st : CacheState)
    (h : ReachableCache exactTools st) : CacheInv exactTools st := by
  induction h with
  | load doc hnd => exact cacheInv_load exactTools doc hnd
  | add st u t a _ ih => exact cacheInv_add exactTools st u t a ih

theorem keys_nodup_unique {α : Type} (l : List (String × α)) (k : String)
    (v v' : α) (hnd : (l.map Prod.fst).Nodup) (h1 : (k, v) ∈ l)
    (h2 : (k, v') ∈ l) : v = v' := by
  have e1 := alookup_of_mem_nodup l k v hnd h1
  have e2 := alookup_of_mem_nodup l k v' hnd h2
  rw [e1] at e2
  exact Option.some.inj e2

/-! ## Claim theorems -/

/-- C10 counterexample: the string "a b" has three characters, yet its
trigram set (computed on the space-stripped lower-cased form "ab") is
empty, so the Dice coefficient of "a b" with itself is 0.0 rather than
the claimed 1.0. -/
theorem c10_dice_self_counterexample :
    3 ≤ "a b".length ∧ diceCoefficient "a b" "a b" = 0 ∧ (0 : ℚ) ≠ 1 :=
  ⟨by decide, by decide, by norm_num⟩

/-- C10 (amended): the trigram Dice coefficient is symmetric;
dice(a, a) = 1.0 whenever a keeps at least three characters after
lower-casing and space-stripping; and a string with fewer than three
such characters has an empty trigram set and scores 0.0 against
anything, with no division by zero. -/
theorem c10_dice_contract (a b : String) :
    diceCoefficient a b = diceCoefficient b a ∧
    (3 ≤ (cleanedChars a).length → diceCoefficient a a = 1) ∧
    ((cleanedChars a).length < 3 →
      getTrigrams a = ∅ ∧ diceCoefficient a b = 0) := by
  refine ⟨?_, ?_, ?_⟩
  · unfold diceCoefficient
    by_cases h : getTrigrams a = ∅ ∨ getTrigrams b = ∅
    · rw [if_pos h, if_pos (Or.symm h)]
    · rw [if_neg h, if_neg (fun hc => h (Or.symm hc))]
      rw [Finset.inter_comm, add_comm]
  · intro h
    have hne := getTrigrams_nonempty a h
    have hcond : ¬(getTrigrams a = ∅ ∨ getTrigrams a = ∅) := by
      intro hc
      rcases hc with h1 | h1 <;> exact hne h1
    unfold diceCoefficient
    rw [if_neg hcond, Finset.inter_self]
    have hc0 : (getTrigrams a).card ≠ 0 := by
      simpa [Finset.card_eq_zero] using hne
    have hcast : ((getTrigrams a).card : ℚ) ≠ 0 := Nat.cast_ne_zero.mpr hc0
    rw [show ((getTrigrams a).card : ℚ) + ((getTrigrams a).card : ℚ)
          = 2 * ((getTrigrams a).card : ℚ) by ring]
    exact div_self (mul_ne_zero two_ne_zero hcast)
  · intro h
    have he := getTrigrams_empty a h
    refine ⟨he, ?_⟩
    unfold diceCoefficient
    rw [if_pos (Or.inl he)]

/-- Witness for C10 (amended): "licht" keeps five characters after
cleaning and scores 1.0 against itself; "ab" keeps only two, so it
scores 0.0. -/
theorem c10_dice_contract_witness :
    (3 ≤ (cleanedChars "licht").length ∧
      diceCoefficient "licht" "licht" = 1) ∧
    ((cleanedChars "ab").length < 3 ∧ diceCoefficient "ab" "xy" = 0) :=
  ⟨⟨by decide, (c10_dice_contract "licht" "licht").2.1 (by decide)⟩,
   ⟨by decide, ((c10_dice_contract "ab" "xy").2.2 (by decide)).2⟩⟩

/-- C2 counterexample: add_to_cache is a no-op when the normalized key
already exists, so after adding ("licht an", toolB) over an existing
entry ("licht an", toolA) the exact lookup still returns toolA, not the
tuple the claim promises for the second add. -/
theorem c2_roundtrip_counterexample :
    getCachedTool (fun _ _ => 0)
      (addToCache []
        (addToCache [] ⟨[], []⟩ "licht an" "toolA" []).1
        "licht an" "toolB" []).1
      "licht an" (92 / 100)
      ≠ (some "toolB", some [], 1) := by decide

/-- C2 (amended): when the normalized utterance is not yet a cache key,
add(U, T, A) stores it and a subsequent get(U, t) hits the exact tier
and returns (T, A, 1.0) for every threshold t and similarity, bypassing
the fuzzy index and the exact_only restriction. -/
theorem c2_roundtrip (exactTools : List String) (st : CacheState)
    (u toolName : String) (args : ToolArgs) (thr : ℚ)
    (sim : String → String → ℚ)
    (h : alookup st.cacheDict (normKey u) = none) :
    getCachedTool sim (addToCache exactTools st u toolName args).1 u thr
      = (some toolName, some args, 1) := by
  have hm : ¬(alookup st.cacheDict (normKey u)).isSome = true := by
    simp [h]
  unfold addToCache
  simp only [hm, if_false, if_neg, Bool.false_eq_true, not_false_iff]
  by_cases hex : exactTools.contains toolName
  · simp only [hex, if_true, if_pos]
    unfold getCachedTool
    dsimp only
    rw [alookup_append_right _ _ _ h]
  · simp only [hex, if_false, if_neg, Bool.false_eq_true, not_false_iff]
    unfold getCachedTool
    simp only [rebuildMatrix]
    rw [alookup_append_right _ _ _ h]

/-- Witness for C2 (amended): learning "spiele musik" in an empty cache
and querying it back returns the stored tool, arguments and score 1. -/
theorem c2_roundtrip_witness :
    alookup (⟨[], []⟩ : CacheState).cacheDict (normKey "spiele musik") = none ∧
    getCachedTool (fun _ _ => 0)
      (addToCache [] ⟨[], []⟩ "spiele musik" "play_music"
        [("query", "jazz")]).1
      "spiele musik" (92 / 100)
      = (some "play_music", some [("query", "jazz")], 1) :=
  ⟨rfl,
   c2_roundtrip [] ⟨[], []⟩ "spiele musik" "play_music"
     [("query", "jazz")] (92 / 100) (fun _ _ => 0) rfl⟩

/-- C1: in every reachable cache state the fuzzy index lists exactly
the non-exact_only entries, every flag equals registry membership of
the owning tool, and get_cached_tool can return a tool of the
exact-only registry only through the exact-key tier with score 1.0 —
never through the fuzzy path, whatever the similarity function says. -/
theorem c1_exact_only_safety (exactTools : List String) (st : CacheState)
    (h : ReachableCache exactTools st) :
    st.utteranceTexts = fuzzyTexts st.cacheDict ∧
    (∀ p ∈ st.cacheDict, p.2.exactOnly = exactTools.contains p.2.tool) ∧
    (∀ (sim : String → String → ℚ) (q : String) (thr : ℚ)
        (tl : String) (a : ToolArgs) (sc : ℚ),
      getCachedTool sim st q thr = (some tl, some a, sc) →
      exactTools.contains tl = true →
      alookup st.cacheDict (normKey q) = some ⟨tl, a, true⟩ ∧ sc = 1) := by
  obtain ⟨hnd, htexts, hflags⟩ := cacheInv_reachable exactTools st h
  refine ⟨htexts, hflags, ?_⟩
  intro sim q thr tl a sc hget hex
  simp only [getCachedTool] at hget
  split at hget
  next e heq =>
    simp only [Prod.mk.injEq, Option.some.injEq] at hget
    obtain ⟨h1, h2, h3⟩ := hget
    have hmem := alookup_mem _ _ _ heq
    have hfe := hflags _ hmem
    simp only at hfe
    have hfe' : e.exactOnly = true := by
      rw [hfe, h1]
      exact hex
    refine ⟨?_, h3.symm⟩
    rw [heq]
    congr 1
    obtain ⟨et, ea, eo⟩ := e
    simp only at h1 h2 hfe'
    rw [h1, h2, hfe']
  next heq =>
    split at hget
    · exact absurd hget (by simp)
    · split at hget
      · split at hget
        next e2 heq2 =>
          split at hget
          next hno =>
            simp only [Prod.mk.injEq, Option.some.injEq] at hget
            obtain ⟨h1, h2, h3⟩ := hget
            have hmem := alookup_mem _ _ _ heq2
            have hfe := hflags _ hmem
            simp only at hfe
            have hfalse : e2.exactOnly = false := by
              cases hcase : e2.exactOnly
              · rfl
              · rw [hcase] at hno
                simp at hno
            rw [hfalse, h1] at hfe
            rw [← hfe] at hex
            exact absurd hex (by simp)
          next hno =>
            exact absurd hget (by simp)
        next heq2 =>
          exact absurd hget (by simp)
      · exact absurd hget (by simp)

/-- Witness for C1: loading a stale document whose single entry owns an
exact-only tool yields a reachable state with an empty fuzzy index and
a corrected flag, and a similarity function that scores every pair 1.0
still cannot make get return the exact-only tool on a non-key query. -/
theorem c1_exact_only_safety_witness :
    (wCacheSt.utteranceTexts = fuzzyTexts wCacheSt.cacheDict ∧
      (∀ p ∈ wCacheSt.cacheDict,
        p.2.exactOnly = wExactTools.contains p.2.tool) ∧
      (∀ (sim : String → String → ℚ) (q : String) (thr : ℚ)
          (tl : String) (a : ToolArgs) (sc : ℚ),
        getCachedTool sim wCacheSt q thr = (some tl, some a, sc) →
        wExactTools.contains tl = true →
        alookup wCacheSt.cacheDict (normKey q) = some ⟨tl, a, true⟩ ∧
          sc = 1)) ∧
    getCachedTool (fun _ _ => 1) wCacheSt "spiele bitte" (92 / 100)
      = (none, none, 0) :=
  ⟨c1_exact_only_safety wExactTools wCacheSt
      (ReachableCache.load wDoc (by decide)),
   rfl⟩

/-- C7: loading a persisted cache document recomputes every entry's
exact_only flag as registry membership of its tool, persists exactly
when some stored flag disagreed, rebuilds the fuzzy index over the
non-exact entries, and in particular an entry stored with
exact_only = false whose tool is now exact-only ends up flagged true
and outside the fuzzy index. -/
theorem c7_load_selfheal (exactTools : List String)
    (doc : List (String × LoadedEntry))
    (hnd : (doc.map Prod.fst).Nodup) :
    (∀ p ∈ (loadFromS3 exactTools doc).1.cacheDict,
        p.2.exactOnly = exactTools.contains p.2.tool) ∧
    ((loadFromS3 exactTools doc).2 = true ↔
        ∃ p ∈ doc,
          p.2.exactOnlyField ≠ some (exactTools.contains p.2.tool)) ∧
    ((loadFromS3 exactTools doc).1.utteranceTexts =
        fuzzyTexts (loadFromS3 exactTools doc).1.cacheDict) ∧
    (∀ p ∈ doc, p.2.exactOnlyField = some false →
        exactTools.contains p.2.tool = true →
        alookup (loadFromS3 exactTools doc).1.cacheDict p.1 =
            some ⟨p.2.tool, p.2.args, true⟩ ∧
        p.1 ∉ (loadFromS3 exactTools doc).1.utteranceTexts) := by
  have hinv := cacheInv_load exactTools doc hnd
  obtain ⟨hnd', htexts, hflags⟩ := hinv
  refine ⟨hflags, ?_, htexts, ?_⟩
  · simp only [loadFromS3]
    rw [List.any_eq_true]
    constructor
    · rintro ⟨p, hp, hne⟩
      exact ⟨p, hp, by simpa using hne⟩
    · rintro ⟨p, hp, hne⟩
      exact ⟨p, hp, by simpa using hne⟩
  · intro p hp hstale hexact
    have hheal : healEntry exactTools p.2 =
        (⟨p.2.tool, p.2.args, true⟩ : CacheEntry) := by
      unfold healEntry
      rw [hexact]
    have hmem :
        (p.1, (⟨p.2.tool, p.2.args, true⟩ : CacheEntry)) ∈
          (loadFromS3 exactTools doc).1.cacheDict := by
      simp only [loadFromS3, rebuildMatrix]
      rw [← hheal]
      exact List.mem_map_of_mem (fun r => (r.1, healEntry exactTools r.2)) hp
    refine ⟨alookup_of_mem_nodup _ _ _ hnd' hmem, ?_⟩
    intro hintex
    rw [htexts] at hintex
    unfold fuzzyTexts at hintex
    rw [List.mem_map] at hintex
    obtain ⟨r, hrmem, hrkey⟩ := hintex
    have hrmem' := List.of_mem_filter hrmem
    have hrdict := List.mem_of_mem_filter hrmem
    have hrp : r.2 = (⟨p.2.tool, p.2.args, true⟩ : CacheEntry) := by
      have : r = (r.1, r.2) := rfl
      have hr2 : (p.1, r.2) ∈ (loadFromS3 exactTools doc).1.cacheDict := by
        rw [← hrkey]
        simpa using hrdict
      exact keys_nodup_unique _ p.1 r.2 _ hnd' hr2 hmem
    rw [hrp] at hrmem'
    simp at hrmem'

/-- Witness for C7: loading wDoc (stored flag false, tool now
exact-only) corrects the flag to true, persists the healed table, and
keeps the entry out of the fuzzy index. -/
theorem c7_load_selfheal_witness :
    (alookup (loadFromS3 wExactTools wDoc).1.cacheDict "spiele despacito" =
        some ⟨"play_music", [("query", "despacito")], true⟩ ∧
      "spiele despacito" ∉ (loadFromS3 wExactTools wDoc).1.utteranceTexts) ∧
    (loadFromS3 wExactTools wDoc).2 = true :=
  ⟨(c7_load_selfheal wExactTools wDoc (by decide)).2.2.2
      ("spiele despacito",
        { tool := "play_music", args := [("query", "despacito")],
          exactOnlyField := some false })
      (by simp [wDoc]) rfl rfl,
   rfl⟩

theorem alookup_appendToRoute (rd : List (String × List String))
    (r u : String) :
    alookup (appendToRoute rd r u) r =
      (alookup rd r).map (fun l => l ++ [u]) := by
  induction rd with
  | nil => rfl
  | cons q t ih =>
    unfold appendToRoute at ih ⊢
    rw [List.map_cons]
    by_cases hq : q.1 == r
    · have hq1 : q.1 = r := by simpa using hq
      simp only [hq, if_true, if_pos]
      rw [alookup_cons, alookup_cons]
      simp only [hq1]
      simp
    · simp only [hq, if_false, if_neg, Bool.false_eq_true, not_false_iff]
      rw [alookup_cons, alookup_cons]
      simp only [hq, if_false, if_neg, Bool.false_eq_true, not_false_iff]
      exact ih

/-- C9: learn_new_phrase is atomic on conflict — when the normalized
utterance already belongs to a route, the state is returned unchanged,
nothing is persisted, and the reply reports the existing owner (the
same-route and cross-route messages both name it); otherwise exactly
one normalized embedding row and its label are appended, the utterance
is recorded under the route, and the table is persisted. -/
theorem c9_teach_atomicity (st : RouterState) (routeName utterance : String) :
    (∀ owner, findOwner st.routeDict (normKey utterance) = some owner →
      learnNewPhrase st routeName utterance =
        (st, false,
          if owner = normKey routeName then
            msgAlreadyKnown (normKey utterance) (normKey routeName)
          else msgConflict (normKey utterance) owner)) ∧
    (findOwner st.routeDict (normKey utterance) = none →
      (learnNewPhrase st routeName utterance).2.1 = true ∧
      alookup (learnNewPhrase st routeName utterance).1.routeDict
          (normKey routeName) =
        some (((alookup st.routeDict (normKey routeName)).getD []) ++
          [normKey utterance]) ∧
      (learnNewPhrase st routeName utterance).1.utteranceMatrix =
        st.utteranceMatrix ++ [normKey utterance] ∧
      (learnNewPhrase st routeName utterance).1.utteranceRoutes =
        st.utteranceRoutes ++ [normKey routeName] ∧
      (learnNewPhrase st routeName utterance).2.2 =
        msgLearned (normKey utterance) (normKey routeName)) := by
  constructor
  · intro owner howner
    simp only [learnNewPhrase]
    rw [howner]
    dsimp only
    by_cases he : owner = normKey routeName
    · rw [if_pos he, if_pos he]
    · rw [if_neg he, if_neg he]
  · intro hnone
    simp only [learnNewPhrase]
    rw [hnone]
    dsimp only
    refine ⟨rfl, ?_, rfl, rfl, rfl⟩
    by_cases hknown : (alookup st.routeDict (normKey routeName)).isSome
    · simp only [hknown, if_true, if_pos]
      rw [alookup_appendToRoute]
      cases hl : alookup st.routeDict (normKey routeName)
      · rw [hl] at hknown
        simp at hknown
      · simp
    · simp only [hknown, if_false, if_neg, Bool.false_eq_true, not_false_iff]
      rw [alookup_appendToRoute]
      have hl : alookup st.routeDict (normKey routeName) = none := by
        cases hl : alookup st.routeDict (normKey routeName)
        · rfl
        · rw [hl] at hknown
          simp at hknown
      rw [alookup_append_right _ _ _ hl, hl]
      simp

/-- Witness for C9: with "licht aus" already recorded under
home_control, teaching it to timers leaves the router state untouched,
does not persist, and reports the owner; teaching a fresh phrase to
timers appends one row, one label, records it, and persists. -/
theorem c9_teach_atomicity_witness :
    (learnNewPhrase
        (⟨[("home_control", ["licht aus"])], ["home_control"],
          ["licht aus"], ["home_control"]⟩ : RouterState)
        "timers" "licht aus" =
      (⟨[("home_control", ["licht aus"])], ["home_control"],
        ["licht aus"], ["home_control"]⟩,
       false, msgConflict "licht aus" "home_control")) ∧
    ((learnNewPhrase
        (⟨[("home_control", ["licht aus"])], ["home_control"],
          ["licht aus"], ["home_control"]⟩ : RouterState)
        "timers" "timer abbrechen").2.1 = true ∧
      alookup (learnNewPhrase
        (⟨[("home_control", ["licht aus"])], ["home_control"],
          ["licht aus"], ["home_control"]⟩ : RouterState)
        "timers" "timer abbrechen").1.routeDict "timers" =
        some ["timer abbrechen"]) := by
  constructor
  · have h := (c9_teach_atomicity
      (⟨[("home_control", ["licht aus"])], ["home_control"],
        ["licht aus"], ["home_control"]⟩ : RouterState)
      "timers" "licht aus").1 "home_control" rfl
    rw [h]
    norm_num
    decide
  · have h := (c9_teach_atomicity
      (⟨[("home_control", ["licht aus"])], ["home_control"],
        ["licht aus"], ["home_control"]⟩ : RouterState)
      "timers" "timer abbrechen").2 rfl
    refine ⟨h.1, ?_⟩
    have h2 := h.2.1
    simpa using h2

/-- C6: when the semantic cache misses, resolve_and_execute_intent asks
the router for (route, matched phrase, score); whenever the matched
phrase is a key of FAST_PATH_MAP and the score exceeds 0.85, the mapped
tool is executed directly with the current room inserted into its
static arguments, the cache is left unchanged, and the result does not
depend on the LLM collaborator (the fallback is skipped). -/
theorem c6_fast_path (simC simR : String → String → ℚ)
    (exactTools : List String)
    (impls : String → ToolArgs → Except Unit String)
    (chat : String → String → String → Option String →
      Option String × List (String × ToolArgs))
    (cache : CacheState) (router : RouterState)
    (room text speakerId : String)
    (hmiss : (getCachedTool simC cache text (92 / 100)).1 = none)
    (route : Option String) (matched : String) (score : ℚ)
    (hmatch : getMatchDetails simR router text = (route, matched, score))
    (hscore : score > 85 / 100)
    (toolName : String) (staticArgs : ToolArgs)
    (hfp : alookup FAST_PATH_MAP matched = some (toolName, staticArgs)) :
    resolveAndExecuteIntent simC simR exactTools impls chat cache router
        room text speakerId
      = (executeTool impls toolName (insertArg staticArgs "room" room),
         [], cache) := by
  simp only [resolveAndExecuteIntent]
  rw [hmiss, hmatch]
  have hcond : score ≥ 85 / 100 ∧
      (alookup FAST_PATH_MAP matched).isSome = true :=
    ⟨le_of_lt hscore, by rw [hfp]; rfl⟩
  simp only [optTruthy]
  rw [if_neg (by simp)]
  rw [if_pos hcond, hfp]
  rfl

/-- Witness for C6: an empty cache misses, the router matches
"musik stoppen" at score 0.9, and the fast path executes stop_music
with the room argument, skipping the LLM. -/
theorem c6_fast_path_witness :
    resolveAndExecuteIntent (fun _ _ => 0) (fun _ _ => 9 / 10) []
        (fun _ _ => Except.ok "Okay.")
        (fun _ _ _ _ => (some "llm answer", []))
        ⟨[], []⟩
        ⟨[("media", ["musik stoppen"])], ["media"], ["musik stoppen"],
         ["media"]⟩
        "küche" "musik stoppen" "bob"
      = (some "Okay.", [], ⟨[], []⟩) :=
  (c6_fast_path (fun _ _ => 0) (fun _ _ => 9 / 10) []
    (fun _ _ => Except.ok "Okay.")
    (fun _ _ _ _ => (some "llm answer", []))
    ⟨[], []⟩
    ⟨[("media", ["musik stoppen"])], ["media"], ["musik stoppen"],
     ["media"]⟩
    "küche" "musik stoppen" "bob"
    rfl
    (some "media") "musik stoppen" (9 / 10)
    (by norm_num [getMatchDetails, argmaxIdx, argmaxAux, routerThreshold])
    (by norm_num)
    "stop_music" []
    rfl).trans rfl

/-- C8 (code bug): on a cache hit whose tool raises, execute_tool
returns None because the error-message return in its exception handler
is commented out, and the cache-hit tier of resolve_and_execute_intent
returns that None as the response text without substituting the fixed
fallback phrase — so the published response text is empty. -/
theorem c8_empty_response_on_tool_failure :
    (resolveAndExecuteIntent (fun _ _ => 0) (fun _ _ => 0) []
        (fun _ _ => Except.error ())
        (fun _ _ _ _ => (some "llm answer", []))
        ⟨[("licht an", ⟨"control_light", [], false⟩)], ["licht an"]⟩
        ⟨[], [], [], []⟩
        "küche" "licht an" "bob").1 = none ∧
    (none : Option String) ≠ some "Das habe ich nicht verstanden." :=
  ⟨rfl, by simp⟩

/-- C3: for any starting state, the event sequence wake(r),
speaker(r, s), transcript(r, t) with t non-blank hands exactly one
(r, t, s) unit of work to the resolution pipeline, and the pending
entry for r is gone afterwards — removal and handoff happen in the same
step of the model. -/
theorem c3_dispatch_once {ε : Type}
    (pipeline : String → String → String → Except ε (List Pub))
    (sanitizeF : String → String) (s : CorrState)
    (room speakerId t : String) (ht : stripStr t ≠ "") :
    (corrStep pipeline sanitizeF
        (corrStep pipeline sanitizeF
          (corrStep pipeline sanitizeF s (CorrEvent.wakeword room))
          (CorrEvent.speakerIdentified room speakerId))
        (CorrEvent.asrText room t)).dispatched
      = s.dispatched ++ [(room, t, speakerId)] ∧
    alookup (corrStep pipeline sanitizeF
        (corrStep pipeline sanitizeF
          (corrStep pipeline sanitizeF s (CorrEvent.wakeword room))
          (CorrEvent.speakerIdentified room speakerId))
        (CorrEvent.asrText room t)).pending room = none := by
  simp only [corrStep, setPendingSpeaker, setPendingText,
    processIntentIfReady, alookup_upsert_self, Option.getD_some]
  rw [if_neg ht]
  exact ⟨rfl, alookup_erase_self _ _⟩

/-- Witness for C3: from the empty state, wake, speaker "bob",
transcript "mach das licht aus" in the kitchen dispatch exactly that
unit and clear the pending entry. -/
theorem c3_dispatch_once_witness :
    (corrStep wOkPipeline id
        (corrStep wOkPipeline id
          (corrStep wOkPipeline id
            ⟨[], [], []⟩ (CorrEvent.wakeword "kitchen"))
          (CorrEvent.speakerIdentified "kitchen" "bob"))
        (CorrEvent.asrText "kitchen" "mach das licht aus")).dispatched
      = [("kitchen", "mach das licht aus", "bob")] ∧
    alookup (corrStep wOkPipeline id
        (corrStep wOkPipeline id
          (corrStep wOkPipeline id
            ⟨[], [], []⟩ (CorrEvent.wakeword "kitchen"))
          (CorrEvent.speakerIdentified "kitchen" "bob"))
        (CorrEvent.asrText "kitchen" "mach das licht aus")).pending
      "kitchen" = none :=
  c3_dispatch_once wOkPipeline id
    ⟨[], [], []⟩ "kitchen" "bob" "mach das licht aus" (by decide)

/-- C4: a second wake before completion wins — after wake(r),
transcript(r, t1), wake(r), speaker(r, s) the pending entry was reset
to the empty intent by the second wake and nothing at all is
dispatched, in particular nothing using t1. -/
theorem c4_new_wake_wins {ε : Type}
    (pipeline : String → String → String → Except ε (List Pub))
    (sanitizeF : String → String) (s : CorrState)
    (room t1 speakerId : String) :
    (corrStep pipeline sanitizeF
        (corrStep pipeline sanitizeF
          (corrStep pipeline sanitizeF
            (corrStep pipeline sanitizeF s (CorrEvent.wakeword room))
            (CorrEvent.asrText room t1))
          (CorrEvent.wakeword room))
        (CorrEvent.speakerIdentified room speakerId)).dispatched
      = s.dispatched ∧
    (corrStep pipeline sanitizeF
        (corrStep pipeline sanitizeF
          (corrStep pipeline sanitizeF
            (corrStep pipeline sanitizeF s (CorrEvent.wakeword room))
            (CorrEvent.asrText room t1))
          (CorrEvent.wakeword room))
        (CorrEvent.speakerIdentified room speakerId)).published
      = s.published ∧
    alookup (corrStep pipeline sanitizeF
        (corrStep pipeline sanitizeF
          (corrStep pipeline sanitizeF s (CorrEvent.wakeword room))
          (CorrEvent.asrText room t1))
        (CorrEvent.wakeword room)).pending room
      = some ⟨none, none⟩ := by
  simp only [corrStep, setPendingSpeaker, setPendingText,
    processIntentIfReady, alookup_upsert_self, Option.getD_some]
  exact ⟨trivial, trivial, trivial⟩

/-- C5: once a ready intent enters pipeline execution with a non-blank
transcript, a pipeline failure (any raised exception in resolution or
response publishing) still publishes the session-end signal for that
room; a blank transcript publishes it directly, so the session always
terminates. -/
theorem c5_failure_terminates {ε : Type}
    (pipeline : String → String → String → Except ε (List Pub))
    (sanitizeF : String → String) (s : CorrState)
    (room t speakerId : String) (e : ε)
    (hpend : alookup s.pending room = some ⟨some t, some speakerId⟩)
    (herr : pipeline room (sanitizeF t) speakerId = Except.error e) :
    Pub.finished room ∈
      (processIntentIfReady pipeline sanitizeF s room).published := by
  simp only [processIntentIfReady]
  rw [hpend]
  dsimp only
  by_cases hblank : stripStr t = ""
  · rw [if_pos hblank]
    simp
  · rw [if_neg hblank, herr]
    simp

/-- Witness for C5: a ready kitchen intent whose pipeline raises still
publishes session-end for the kitchen. -/
theorem c5_failure_terminates_witness :
    Pub.finished "kitchen" ∈
      (processIntentIfReady (fun _ _ _ => Except.error ()) id
        ⟨[("kitchen", ⟨some "licht an", some "bob"⟩)], [], []⟩
        "kitchen").published :=
  c5_failure_terminates (fun _ _ _ => Except.error ()) id
    ⟨[("kitchen", ⟨some "licht an", some "bob"⟩)], [], []⟩
    "kitchen" "licht an" "bob" () rfl rfl

end VoiceOrch
